import Mathlib

/-!
Verification of the mpc-rs parser-combinator core (src/lib.rs) against its
natural-language specification.  The Rust source is shallowly embedded:
the parser enumeration becomes an inductive type, the dynamically typed
`Box<dyn Any>` payload becomes a closed sum `MpcVal`, and the recursive
evaluator `MpcParser::parse` becomes a fuel-indexed function `parseAux`
(`none` means the fuel ran out, i.e. the Rust loop has not terminated
within that many steps).  Machine integers (`i64`, `i32`) are modelled as
`Int`; overflow is irrelevant at the sizes involved.
-/

/-- State type: `MpcState { pos, row, col, term }` (all machine integers). -/
structure MpcState where
  pos : Int
  row : Int
  col : Int
  term : Int
  deriving Repr, DecidableEq

/-- `MpcState::default()`: all fields zero. -/
def MpcState.defaultState : MpcState := ⟨0, 0, 0, 0⟩

/-- Error type: `MpcErr`. -/
structure MpcErr where
  state : MpcState
  expected_num : Int
  filename : String
  failure : String
  expected : List String
  received : Char
  deriving Repr, DecidableEq

/-- `MpcErr::new`: stores the state, the expected list and its length, an
empty filename, the failure message and the received character. -/
def MpcErr.new (state : MpcState) (expected : List String) (failure : String)
    (received : Char) : MpcErr :=
  ⟨state, (expected.length : Int), "", failure, expected, received⟩

/-- AST type: `MpcAst { tag, contents, state, children_num, children }`. -/
inductive MpcAst where
  | mk (tag : String) (contents : String) (state : MpcState)
      (children_num : Int) (children : List MpcAst)
  deriving Repr

def MpcAst.tag : MpcAst → String
  | .mk t _ _ _ _ => t

def MpcAst.contents : MpcAst → String
  | .mk _ c _ _ _ => c

def MpcAst.state : MpcAst → MpcState
  | .mk _ _ s _ _ => s

/-- `MpcAst::new(tag, contents)`: default state, no children. -/
def MpcAst.new (tag : String) (contents : String) : MpcAst :=
  .mk tag contents MpcState.defaultState 0 []

/-- The dynamically typed payload `MpcVal = Box<dyn Any>`, restricted to the
closed set of payload types the library itself ever boxes: strings,
unit, a captured parser state, and AST nodes. -/
inductive MpcVal where
  | str (s : String)
  | unit
  | state (st : MpcState)
  | ast (a : MpcAst)
  deriving Repr

/-- Result type: `MpcResult = Ok(MpcVal) | Err(MpcErr)`. -/
inductive MpcResult where
  | ok (v : MpcVal)
  | err (e : MpcErr)
  deriving Repr

/-- The fold functions `fn(i32, Vec<MpcVal>) -> MpcVal`. -/
def FoldFn : Type := Int → List MpcVal → MpcVal

mutual
/-- Parser: `MpcParser { name, parser_type }`. -/
inductive MpcParser : Type where
  | mk (name : String) (parser_type : MpcParserType)

/-- The closed set of parser variants `MpcParserType`. -/
inductive MpcParserType : Type where
  | anyT : MpcParserType
  | charT (c : Char) : MpcParserType
  | rangeT (s e : Char) : MpcParserType
  | oneofT (s : List Char) : MpcParserType
  | noneofT (s : List Char) : MpcParserType
  | satisfyT (f : Char → Bool) : MpcParserType
  | stringT (s : List Char) : MpcParserType
  | passT : MpcParserType
  | failT (msg : String) : MpcParserType
  | liftT (f : Unit → MpcVal) : MpcParserType
  | liftValT (f : Unit → MpcVal) : MpcParserType
  | anchorT (f : Char → Char → Bool) : MpcParserType
  | stateT : MpcParserType
  | andT (ps : List MpcParser) (fold : Int → List MpcVal → MpcVal) : MpcParserType
  | orT (ps : List MpcParser) : MpcParserType
  | manyT (p : MpcParser) (fold : Int → List MpcVal → MpcVal) : MpcParserType
  | many1T (p : MpcParser) (fold : Int → List MpcVal → MpcVal) : MpcParserType
  | countT (n : Int) (p : MpcParser) (fold : Int → List MpcVal → MpcVal) : MpcParserType
  | sepbyT (p : MpcParser) (sep : MpcParser) (fold : Int → List MpcVal → MpcVal) : MpcParserType
  | sepby1T (p : MpcParser) (sep : MpcParser) (fold : Int → List MpcVal → MpcVal) : MpcParserType
  | tagT (p : MpcParser) (tag : String) : MpcParserType
  | rootT (p : MpcParser) : MpcParserType
end

def MpcParser.pname : MpcParser → String
  | .mk n _ => n

def MpcParser.parser_type : MpcParser → MpcParserType
  | .mk _ t => t

/-! Constructor functions (`mpc_*`).  Names follow the Rust source; the
`name` strings are kept but, matching the source, play no semantic role. -/

def mpc_any : MpcParser := .mk "any" .anyT

def mpc_char (c : Char) : MpcParser := .mk ("char:" ++ String.mk [c]) (.charT c)

def mpc_range (s e : Char) : MpcParser :=
  .mk ("range:" ++ String.mk [s] ++ "-" ++ String.mk [e]) (.rangeT s e)

def mpc_oneof (s : List Char) : MpcParser :=
  .mk ("oneof:" ++ String.mk s) (.oneofT s)

def mpc_noneof (s : List Char) : MpcParser :=
  .mk ("noneof:" ++ String.mk s) (.noneofT s)

def mpc_satisfy (f : Char → Bool) : MpcParser := .mk "satisfy" (.satisfyT f)

def mpc_string (s : List Char) : MpcParser :=
  .mk ("string:" ++ String.mk s) (.stringT s)

def mpc_pass : MpcParser := .mk "pass" .passT

def mpc_fail (m : String) : MpcParser := .mk ("fail:" ++ m) (.failT m)

def mpc_lift (f : Unit → MpcVal) : MpcParser := .mk "lift" (.liftT f)

def mpc_lift_val (f : Unit → MpcVal) : MpcParser := .mk "lift_val" (.liftValT f)

def mpc_anchor (f : Char → Char → Bool) : MpcParser := .mk "anchor" (.anchorT f)

def mpc_state : MpcParser := .mk "state" .stateT

def mpc_and (ps : List MpcParser) (fold : Int → List MpcVal → MpcVal) : MpcParser :=
  .mk "and" (.andT ps fold)

def mpc_or (ps : List MpcParser) : MpcParser := .mk "or" (.orT ps)

def mpc_many (p : MpcParser) (fold : Int → List MpcVal → MpcVal) : MpcParser :=
  .mk "many" (.manyT p fold)

def mpc_many1 (p : MpcParser) (fold : Int → List MpcVal → MpcVal) : MpcParser :=
  .mk "many1" (.many1T p fold)

def mpc_count (n : Int) (p : MpcParser) (fold : Int → List MpcVal → MpcVal) : MpcParser :=
  .mk ("count:" ++ toString n) (.countT n p fold)

def mpc_sepby (p sep : MpcParser) (fold : Int → List MpcVal → MpcVal) : MpcParser :=
  .mk "sepby" (.sepbyT p sep fold)

def mpc_sepby1 (p sep : MpcParser) (fold : Int → List MpcVal → MpcVal) : MpcParser :=
  .mk "sepby1" (.sepby1T p sep fold)

def mpca_tag (p : MpcParser) (tag : String) : MpcParser :=
  .mk ("tag:" ++ tag) (.tagT p tag)

def mpca_root (p : MpcParser) : MpcParser := .mk "root" (.rootT p)

/-- The NUL character `'\0'` used by the source as the "no character
received" marker. -/
def nulChar : Char := Char.ofNat 0

/-- A single-quote character, used to build the quoted failure
messages of the source without embedding quote characters in literals. -/
def quoteStr : String := String.mk [Char.ofNat 39]

/-- `mpc_eoi`: an Anchor parser whose predicate tests that the next
character is `'\0'`. -/
def mpc_eoi : MpcParser :=
  .mk "eoi" (.anchorT (fun _prev next => next == nulChar))

/-- `mpc_soi`: an Anchor parser whose predicate tests that the previous
character is `'\0'`. -/
def mpc_soi : MpcParser :=
  .mk "soi" (.anchorT (fun prev _next => prev == nulChar))

/-- `mpc_boundary_newline` (also `mpc_boundary`): an Anchor parser testing a
word-boundary predicate on both neighbouring characters. -/
def mpc_boundary_newline : MpcParser :=
  .mk "boundary_newline" (.anchorT (fun prev next =>
    (prev == nulChar || (!(prev.isAlphanum) && prev != '_')) &&
    (next == nulChar || (!(next.isAlphanum) && next != '_'))))

def mpc_boundary : MpcParser := mpc_boundary_newline

/-! Common fold functions. -/

/-- `mpcf_strfold`: concatenates those results that downcast to `String`. -/
def mpcf_strfold (_n : Int) (xs : List MpcVal) : MpcVal :=
  .str (xs.foldl (fun acc x => match x with | .str s => acc ++ s | _ => acc) "")

/-- `mpcf_fst`: the first result, or unit on an empty list. -/
def mpcf_fst (_n : Int) (xs : List MpcVal) : MpcVal :=
  match xs with
  | [] => .unit
  | x :: _ => x

/-- `mpcf_null`: always unit. -/
def mpcf_null (_n : Int) (_xs : List MpcVal) : MpcVal := .unit

/-! The input stream `MpcInput`.  The Rust struct borrows the whole input
string and keeps a byte index `pos` into it; since `pos` only ever moves
over whole characters, the suffix `&string[pos..]` is modelled directly as
the list of remaining characters, alongside the byte index. -/

/-- `char::len_utf8`: the UTF-8 encoded width of a character. -/
def lenUtf8 (c : Char) : Nat :=
  if c.toNat < 0x80 then 1
  else if c.toNat < 0x800 then 2
  else if c.toNat < 0x10000 then 3
  else 4

/-- Input stream: filename, remaining characters (`&string[pos..]`), the byte
index `pos`, and the logical parser state. -/
structure MpcInput where
  filename : String
  remaining : List Char
  bytePos : Nat
  state : MpcState
  deriving Repr

/-- `MpcInput::new(filename, string)`: cursor at the start, default state. -/
def MpcInput.new (filename : String) (s : List Char) : MpcInput :=
  ⟨filename, s, 0, MpcState.defaultState⟩

/-- `MpcInput::peek`: the next remaining character, if any. -/
def MpcInput.peek (input : MpcInput) : Option Char :=
  input.remaining.head?

/-- The state update performed by `MpcInput::advance` on consuming `c`:
`pos` is incremented by one; a newline resets `col` to 0 and increments
`row`, any other character increments `col`. -/
def advState (c : Char) (st : MpcState) : MpcState :=
  { st with
    pos := st.pos + 1
    row := if c = '\n' then st.row + 1 else st.row
    col := if c = '\n' then 0 else st.col + 1 }

/-- `MpcInput::advance`: consumes the next character if there is one,
advancing the byte index by its encoded width and updating the state;
returns the consumed character.  At end of input returns `none` and leaves
the input unchanged. -/
def MpcInput.advance (input : MpcInput) : Option Char × MpcInput :=
  match input.remaining with
  | [] => (none, input)
  | c :: rest =>
      (some c,
       { input with
         remaining := rest
         bytePos := input.bytePos + lenUtf8 c
         state := advState c input.state })

/-- The input after an `advance` call (discarding the returned character). -/
def MpcInput.adv (input : MpcInput) : MpcInput := (input.advance).2

/-- Renaming the tag of an AST node (the mutation performed by the `Root` arm). -/
def MpcAst.setTag (a : MpcAst) (t : String) : MpcAst :=
  match a with
  | .mk _ c s n ch => .mk t c s n ch

/-- The Rust `format!("{:?}", val)` applied to a `Box<dyn Any>`: the `Debug`
implementation for `dyn Any` renders every value as the constant string
`Any \x7b .. \x7d`, independent of the boxed payload. -/
def debugRender (_v : MpcVal) : String := "Any \x7b .. \x7d"

/-- The loop of the `String` arm: walk the expected characters, advancing on each
match; on the first mismatch (or end of input) fail with the whole expected
string at the current state.  `whole` is the full expected string used in
the error, `s` the characters still to match. -/
def stringStep (whole : List Char) (s : List Char) (input : MpcInput) :
    MpcResult × MpcInput :=
  match s, input with
  | [], input => (.ok (.str (String.mk whole)), input)
  | e :: rest, input =>
      match input.peek with
      | some c =>
          if c = e then stringStep whole rest input.adv
          else (.err (MpcErr.new input.state [String.mk whole]
                  ("expected " ++ quoteStr ++ String.mk whole ++ quoteStr) c), input)
      | none =>
          (.err (MpcErr.new input.state [String.mk whole]
              ("expected " ++ quoteStr ++ String.mk whole ++ quoteStr) nulChar), input)

/-- A pending evaluator call: either a `parse` dispatch or one of the loops
inside the `And`/`Or`/`Many`/`Count`/`SepBy` arms, carrying the accumulated
results of the loop (the Rust `results` vector). -/
inductive Call where
  | parse (p : MpcParser) (input : MpcInput)
  | andLoop (ps : List MpcParser) (fold : Int → List MpcVal → MpcVal)
      (input : MpcInput) (acc : List MpcVal)
  | orLoop (ps : List MpcParser) (input : MpcInput)
  | manyLoop (p : MpcParser) (fold : Int → List MpcVal → MpcVal)
      (input : MpcInput) (acc : List MpcVal)
  | countLoop (k : Nat) (p : MpcParser) (fold : Int → List MpcVal → MpcVal)
      (input : MpcInput) (acc : List MpcVal)
  | sepLoop (p sep : MpcParser) (fold : Int → List MpcVal → MpcVal)
      (input : MpcInput) (acc : List MpcVal)

/-- The evaluator `MpcParser::parse`, fuel-indexed.  Each recursive step
consumes one unit of fuel; `none` means the fuel was exhausted, so a result
of `none` for every fuel amount means the Rust evaluator does not
terminate.  The input is threaded explicitly: the Rust code mutates the
input in place, and in particular an `Err` outcome keeps whatever
consumption the failed attempt performed (there is no snapshot/restore
anywhere in the source). -/
def parseAux : Nat → Call → Option (MpcResult × MpcInput)
  | 0, _ => none
  | fuel + 1, call =>
    match call with
    | .parse (.mk _ t) input =>
      match t with
      | .anyT =>
          match input.advance with
          | (some c, input') => some (.ok (.str (String.mk [c])), input')
          | (none, input') =>
              some (.err (MpcErr.new input'.state ["any"]
                  "unexpected end of input" nulChar), input')
      | .charT expected =>
          match input.peek with
          | some c =>
              if c = expected then some (.ok (.str (String.mk [c])), input.adv)
              else some (.err (MpcErr.new input.state [String.mk [expected]]
                  ("expected " ++ quoteStr ++ String.mk [expected] ++ quoteStr) c), input)
          | none =>
              some (.err (MpcErr.new input.state [String.mk [expected]]
                  ("expected " ++ quoteStr ++ String.mk [expected] ++ quoteStr) nulChar), input)
      | .rangeT s e =>
          match input.peek with
          | some c =>
              if s ≤ c ∧ c ≤ e then some (.ok (.str (String.mk [c])), input.adv)
              else some (.err (MpcErr.new input.state
                  [String.mk [s] ++ "-" ++ String.mk [e]]
                  ("expected char in range " ++ String.mk [s] ++ "-" ++ String.mk [e]) c), input)
          | none =>
              some (.err (MpcErr.new input.state
                  [String.mk [s] ++ "-" ++ String.mk [e]]
                  ("expected char in range " ++ String.mk [s] ++ "-" ++ String.mk [e]) nulChar), input)
      | .oneofT chars =>
          match input.peek with
          | some c =>
              if chars.contains c then some (.ok (.str (String.mk [c])), input.adv)
              else some (.err (MpcErr.new input.state [String.mk chars]
                  ("expected one of " ++ quoteStr ++ String.mk chars ++ quoteStr) c), input)
          | none =>
              some (.err (MpcErr.new input.state [String.mk chars]
                  ("expected one of " ++ quoteStr ++ String.mk chars ++ quoteStr) nulChar), input)
      | .noneofT chars =>
          match input.peek with
          | some c =>
              if chars.contains c then
                some (.err (MpcErr.new input.state ["not " ++ String.mk chars]
                    ("unexpected one of " ++ quoteStr ++ String.mk chars ++ quoteStr) c), input)
              else some (.ok (.str (String.mk [c])), input.adv)
          | none => some (.ok (.str ""), input)
      | .satisfyT f =>
          match input.peek with
          | some c =>
              if f c then some (.ok (.str (String.mk [c])), input.adv)
              else
                some (.err (MpcErr.new input.adv.state ["satisfy"]
                    "char does not satisfy condition" c), input.adv)
          | none =>
              some (.err (MpcErr.new input.state ["satisfy"] "end of input" nulChar), input)
      | .stringT s => some (stringStep s s input)
      | .passT => some (.ok .unit, input)
      | .failT msg => some (.err (MpcErr.new input.state [] msg nulChar), input)
      | .liftT f => some (.ok (f ()), input)
      | .liftValT f => some (.ok (f ()), input)
      | .anchorT _f => some (.ok .unit, input)
      | .stateT => some (.ok (.state input.state), input)
      | .andT ps fold => parseAux fuel (.andLoop ps fold input [])
      | .orT ps => parseAux fuel (.orLoop ps input)
      | .manyT p fold => parseAux fuel (.manyLoop p fold input [])
      | .many1T p fold =>
          match parseAux fuel (.parse p input) with
          | none => none
          | some (.err e, input') => some (.err e, input')
          | some (.ok v, input') => parseAux fuel (.manyLoop p fold input' [v])
      | .countT n p fold => parseAux fuel (.countLoop n.toNat p fold input [])
      | .sepbyT p sep fold =>
          match parseAux fuel (.parse p input) with
          | none => none
          | some (.err _, input') => some (.ok (fold 0 []), input')
          | some (.ok v, input') => parseAux fuel (.sepLoop p sep fold input' [v])
      | .sepby1T p sep fold =>
          match parseAux fuel (.parse p input) with
          | none => none
          | some (.err e, input') => some (.err e, input')
          | some (.ok v, input') => parseAux fuel (.sepLoop p sep fold input' [v])
      | .tagT p tag =>
          match parseAux fuel (.parse p input) with
          | none => none
          | some (.err e, input') => some (.err e, input')
          | some (.ok v, input') =>
              some (.ok (.ast (MpcAst.new tag (debugRender v))), input')
      | .rootT p =>
          match parseAux fuel (.parse p input) with
          | none => none
          | some (.err e, input') => some (.err e, input')
          | some (.ok v, input') =>
              match v with
              | .ast a => some (.ok (.ast (a.setTag "root")), input')
              | v => some (.ok v, input')
    | .andLoop [] fold input acc => some (.ok (fold (acc.length : Int) acc), input)
    | .andLoop (p :: ps) fold input acc =>
        match parseAux fuel (.parse p input) with
        | none => none
        | some (.err e, input') => some (.err e, input')
        | some (.ok v, input') => parseAux fuel (.andLoop ps fold input' (acc ++ [v]))
    | .orLoop [] input =>
        some (.err (MpcErr.new input.state ["or"] "no alternatives matched" nulChar), input)
    | .orLoop (p :: ps) input =>
        match parseAux fuel (.parse p input) with
        | none => none
        | some (.ok v, input') => some (.ok v, input')
        | some (.err _, input') => parseAux fuel (.orLoop ps input')
    | .manyLoop p fold input acc =>
        match parseAux fuel (.parse p input) with
        | none => none
        | some (.ok v, input') => parseAux fuel (.manyLoop p fold input' (acc ++ [v]))
        | some (.err _, input') => some (.ok (fold (acc.length : Int) acc), input')
    | .countLoop 0 _p fold input acc => some (.ok (fold (acc.length : Int) acc), input)
    | .countLoop (k + 1) p fold input acc =>
        match parseAux fuel (.parse p input) with
        | none => none
        | some (.err e, input') => some (.err e, input')
        | some (.ok v, input') => parseAux fuel (.countLoop k p fold input' (acc ++ [v]))
    | .sepLoop p sep fold input acc =>
        match parseAux fuel (.parse sep input) with
        | none => none
        | some (.err _, input1) => some (.ok (fold (acc.length : Int) acc), input1)
        | some (.ok _, input1) =>
            match parseAux fuel (.parse p input1) with
            | none => none
            | some (.err _, input2) => some (.ok (fold (acc.length : Int) acc), input2)
            | some (.ok v, input2) => parseAux fuel (.sepLoop p sep fold input2 (acc ++ [v]))

/-- Running a parser on an input, with the given amount of fuel. -/
def parseP (fuel : Nat) (p : MpcParser) (input : MpcInput) :
    Option (MpcResult × MpcInput) :=
  parseAux fuel (.parse p input)

/-- `mpc_parse(filename, string, parser)`: one fresh cursor at the start of
the input, then a single run of the parser. -/
def mpc_parse (fuel : Nat) (filename : String) (s : List Char) (p : MpcParser) :
    Option (MpcResult × MpcInput) :=
  parseP fuel p (MpcInput.new filename s)

/-! Helper definitions and lemmas used by the claim theorems. -/

/-- Total UTF-8 byte length of a character list. -/
def utf8Len (s : List Char) : Nat := (s.map lenUtf8).sum

/-- The parser state after consuming a list of characters in order. -/
def stateAfterChars (s : List Char) (st : MpcState) : MpcState :=
  s.foldl (fun a c => advState c a) st

theorem stateAfterChars_pos (s : List Char) (st : MpcState) :
    (stateAfterChars s st).pos = st.pos + s.length := by
  induction s generalizing st with
  | nil => simp [stateAfterChars]
  | cons c rest ih =>
      simp [stateAfterChars, List.foldl] at ih ⊢
      rw [ih]
      simp [advState]
      omega

theorem stringStep_ok (s r whole : List Char) (fn : String) (bp : Nat) (st : MpcState) :
    stringStep whole s ⟨fn, s ++ r, bp, st⟩ =
      (.ok (.str (String.mk whole)), ⟨fn, r, bp + utf8Len s, stateAfterChars s st⟩) := by
  induction s generalizing bp st with
  | nil => simp [stringStep, utf8Len, stateAfterChars]
  | cons c rest ih =>
      simp only [stringStep, MpcInput.peek, List.cons_append, List.head?]
      rw [if_pos trivial]
      show stringStep whole rest ⟨fn, rest ++ r, bp + lenUtf8 c, advState c st⟩ = _
      rw [ih]
      simp [utf8Len, stateAfterChars, Nat.add_assoc]

theorem manyLoop_pass_none (fuel : Nat) (fold : Int → List MpcVal → MpcVal)
    (input : MpcInput) (acc : List MpcVal) :
    parseAux fuel (.manyLoop mpc_pass fold input acc) = none := by
  induction fuel generalizing input acc with
  | zero => rfl
  | succ k ih =>
      cases k with
      | zero => rfl
      | succ m => exact ih input (acc ++ [MpcVal.unit])

/-- The single-character primitive matchers: those that examine one peeked
character and consume nothing on failure. -/
def isSingleCharMatcher : MpcParserType → Bool
  | .anyT => true
  | .charT _ => true
  | .rangeT _ _ => true
  | .oneofT _ => true
  | .noneofT _ => true
  | _ => false
theorem singleChar_fail_pre (n : Nat) (nm : String) (t : MpcParserType) (input : MpcInput)
    (e : MpcErr) (inp1 : MpcInput)
    (hT : isSingleCharMatcher t = true)
    (h : parseP (n + 1) (.mk nm t) input = some (.err e, inp1)) :
    e.expected ≠ [] ∧ e.state = input.state ∧ inp1 = input := by
  cases t <;> simp [isSingleCharMatcher] at hT
  case anyT =>
    rcases hr : input.remaining with _ | ⟨c, rest⟩
    · simp [parseP, parseAux, MpcInput.advance, hr] at h
      obtain ⟨he, hi⟩ := h
      subst he hi
      refine ⟨by simp [MpcErr.new], rfl, rfl⟩
    · simp [parseP, parseAux, MpcInput.advance, hr] at h
  case charT c0 =>
    rcases hr : input.remaining with _ | ⟨c, rest⟩
    · simp [parseP, parseAux, MpcInput.peek, hr] at h
      obtain ⟨he, hi⟩ := h
      subst he hi
      refine ⟨by simp [MpcErr.new], rfl, rfl⟩
    · by_cases hc : c = c0
      · simp [parseP, parseAux, MpcInput.peek, hr, hc] at h
      · simp [parseP, parseAux, MpcInput.peek, hr, hc] at h
        obtain ⟨he, hi⟩ := h
        subst he hi
        refine ⟨by simp [MpcErr.new], rfl, rfl⟩
  case rangeT cs ce =>
    rcases hr : input.remaining with _ | ⟨c, rest⟩
    · simp [parseP, parseAux, MpcInput.peek, hr] at h
      obtain ⟨he, hi⟩ := h
      subst he hi
      refine ⟨by simp [MpcErr.new], rfl, rfl⟩
    · by_cases hc : cs ≤ c ∧ c ≤ ce
      · simp [parseP, parseAux, MpcInput.peek, hr, hc] at h
      · simp [parseP, parseAux, MpcInput.peek, hr, hc] at h
        obtain ⟨he, hi⟩ := h
        subst he hi
        refine ⟨by simp [MpcErr.new], rfl, rfl⟩
  case oneofT chars =>
    rcases hr : input.remaining with _ | ⟨c, rest⟩
    · simp [parseP, parseAux, MpcInput.peek, hr] at h
      obtain ⟨he, hi⟩ := h
      subst he hi
      refine ⟨by simp [MpcErr.new], rfl, rfl⟩
    · by_cases hc : c ∈ chars
      · simp [parseP, parseAux, MpcInput.peek, hr, hc] at h
      · simp [parseP, parseAux, MpcInput.peek, hr, hc] at h
        obtain ⟨he, hi⟩ := h
        subst he hi
        refine ⟨by simp [MpcErr.new], rfl, rfl⟩
  case noneofT chars =>
    rcases hr : input.remaining with _ | ⟨c, rest⟩
    · simp [parseP, parseAux, MpcInput.peek, hr] at h
    · by_cases hc : c ∈ chars
      · simp [parseP, parseAux, MpcInput.peek, hr, hc] at h
        obtain ⟨he, hi⟩ := h
        subst he hi
        refine ⟨by simp [MpcErr.new], rfl, rfl⟩
      · simp [parseP, parseAux, MpcInput.peek, hr, hc] at h

theorem satisfy_fail_state (n : Nat) (nm : String) (f : Char → Bool) (input : MpcInput)
    (e : MpcErr) (inp1 : MpcInput)
    (h : parseP (n + 1) (.mk nm (.satisfyT f)) input = some (.err e, inp1)) :
    e.expected ≠ [] ∧ e.state = inp1.state := by
  rcases hr : input.remaining with _ | ⟨c, rest⟩
  · simp [parseP, parseAux, MpcInput.peek, hr] at h
    obtain ⟨he, hi⟩ := h
    subst he hi
    exact ⟨by simp [MpcErr.new], rfl⟩
  · by_cases hf : f c
    · simp [parseP, parseAux, MpcInput.peek, hr, hf] at h
    · simp [parseP, parseAux, MpcInput.peek, hr, hf] at h
      obtain ⟨he, hi⟩ := h
      subst he hi
      exact ⟨by simp [MpcErr.new], rfl⟩

theorem stringStep_fail_state (s whole : List Char) (input : MpcInput)
    (e : MpcErr) (inp1 : MpcInput)
    (h : stringStep whole s input = (.err e, inp1)) :
    e.expected ≠ [] ∧ e.state = inp1.state := by
  induction s generalizing input with
  | nil => simp [stringStep] at h
  | cons c rest ih =>
      rcases hp : input.peek with _ | c2
      · simp [stringStep, hp] at h
        obtain ⟨he, hi⟩ := h
        subst he hi
        exact ⟨by simp [MpcErr.new], rfl⟩
      · by_cases hc : c2 = c
        · simp only [stringStep, hp] at h
          rw [if_pos hc] at h
          exact ih _ h
        · simp [stringStep, hp, hc] at h
          obtain ⟨he, hi⟩ := h
          subst he hi
          exact ⟨by simp [MpcErr.new], rfl⟩

/-! Claim theorems. -/

/-- C1: on input "x" with grammar or([char(a), char(b)]) the Or arm discards
the branch errors entirely and produces the fixed error with expected set
["or"] and message "no alternatives matched" at offset 0; the expected sets
of the branches (["a", "b"]) are not unioned, so no farthest-failure
merging takes place. -/
theorem claim_C1 :
    parseP 5 (mpc_or [mpc_char 'a', mpc_char 'b']) (MpcInput.new "" ['x']) =
      some (.err (MpcErr.new MpcState.defaultState ["or"] "no alternatives matched" nulChar),
        MpcInput.new "" ['x'])
    ∧ (["or"] : List String) ≠ ["a", "b"] :=
  ⟨rfl, by decide⟩

/-- C2: the Or arm does not restore the cursor after a failed alternative.
On input "ax" with or([string("ab"), char(a)]), the first branch consumes
the "a" before failing, the second branch is then tried at offset 1 where
it fails, and the whole alternation fails with the cursor left at offset 1;
yet char(a) run at the saved offset 0 would succeed. -/
theorem claim_C2 :
    parseP 9 (mpc_or [mpc_string ['a', 'b'], mpc_char 'a']) (MpcInput.new "" ['a', 'x']) =
      some (.err (MpcErr.new ⟨1, 0, 1, 0⟩ ["or"] "no alternatives matched" nulChar),
        ⟨"", ['x'], 1, ⟨1, 0, 1, 0⟩⟩)
    ∧ parseP 9 (mpc_char 'a') (MpcInput.new "" ['a', 'x']) =
        some (.ok (.str "a"), ⟨"", ['x'], 1, ⟨1, 0, 1, 0⟩⟩) :=
  ⟨rfl, rfl⟩

/-- C3: many(pass) and many1(pass) never terminate: for every amount of
fuel, every fold function and every input, the evaluator exhausts the fuel
(the Many loop repeats the zero-width success forever; there is no
zero-width detection in the source). -/
theorem claim_C3 (fuel : Nat) (fold1 fold2 : Int → List MpcVal → MpcVal) (input : MpcInput) :
    parseP fuel (mpc_many mpc_pass fold1) input = none ∧
    parseP fuel (mpc_many1 mpc_pass fold2) input = none := by
  constructor
  · cases fuel with
    | zero => rfl
    | succ k => exact manyLoop_pass_none k fold1 input []
  · cases fuel with
    | zero => rfl
    | succ k =>
        cases k with
        | zero => rfl
        | succ m => exact manyLoop_pass_none (m + 1) fold2 input [MpcVal.unit]

/-- C4: neither Many nor SepBy restores the cursor after a failed attempt.
many(string("ab")) on "aba" succeeds folding one "ab" but leaves the cursor
at offset 3 (the failed third-character attempt consumed the trailing "a");
restoring would leave it at offset 2.  sepby(range(0,9), char(,)) on "1,x"
succeeds folding one "1" but leaves the cursor at offset 2, past the
separator of the failed separator-then-element attempt. -/
theorem claim_C4 :
    parseP 9 (mpc_many (mpc_string ['a', 'b']) mpcf_strfold) (MpcInput.new "" ['a', 'b', 'a']) =
      some (.ok (.str "ab"), ⟨"", [], 3, ⟨3, 0, 3, 0⟩⟩)
    ∧ parseP 9 (mpc_sepby (mpc_range '0' '9') (mpc_char ',') mpcf_strfold)
        (MpcInput.new "" ['1', ',', 'x']) =
      some (.ok (.str "1"), ⟨"", ['x'], 2, ⟨2, 0, 2, 0⟩⟩) :=
  ⟨rfl, rfl⟩

/-- C5 counterexample: the satisfy matcher advances past the offending
character before building its error, so on input "x" with a digit
predicate the reported position is the post-advance offset 1, not the
pre-advance offset 0 of the cursor before the attempt. -/
theorem claim_C5_counterexample :
    parseP 5 (mpc_satisfy Char.isDigit) (MpcInput.new "" ['x']) =
      some (.err (MpcErr.new ⟨1, 0, 1, 0⟩ ["satisfy"] "char does not satisfy condition" 'x'),
        ⟨"", [], 1, ⟨1, 0, 1, 0⟩⟩)
    ∧ (MpcErr.new ⟨1, 0, 1, 0⟩ ["satisfy"] "char does not satisfy condition" 'x').state ≠
        (MpcInput.new "" ['x']).state :=
  ⟨rfl, by decide⟩

/-- C5 amended: every failing single-character matcher (any, char, range,
oneof, noneof) produces a non-empty expected set, an error position equal
to the pre-advance cursor position, and leaves the cursor unchanged;
satisfy and string also produce non-empty expected sets but report the
cursor position at the moment of failure (satisfy after consuming the
offending character, string after consuming the matched prefix). -/
theorem claim_C5 :
    (∀ (n : Nat) (nm : String) (t : MpcParserType) (input : MpcInput)
        (e : MpcErr) (inp1 : MpcInput),
      isSingleCharMatcher t = true →
      parseP (n + 1) (.mk nm t) input = some (.err e, inp1) →
      e.expected ≠ [] ∧ e.state = input.state ∧ inp1 = input) ∧
    (∀ (n : Nat) (nm : String) (f : Char → Bool) (input : MpcInput)
        (e : MpcErr) (inp1 : MpcInput),
      parseP (n + 1) (.mk nm (.satisfyT f)) input = some (.err e, inp1) →
      e.expected ≠ [] ∧ e.state = inp1.state) ∧
    (∀ (n : Nat) (nm : String) (s : List Char) (input : MpcInput)
        (e : MpcErr) (inp1 : MpcInput),
      parseP (n + 1) (.mk nm (.stringT s)) input = some (.err e, inp1) →
      e.expected ≠ [] ∧ e.state = inp1.state) := by
  refine ⟨singleChar_fail_pre, satisfy_fail_state, ?_⟩
  intro n nm s input e inp1 h
  exact stringStep_fail_state s s input e inp1 (Option.some.inj h)

/-- C5 witness: the amended theorem applied to char(a), satisfy(isDigit)
and string("a"), each failing on the input "x". -/
theorem claim_C5_witness :
    ((MpcErr.new MpcState.defaultState [String.mk ['a']]
        ("expected " ++ quoteStr ++ String.mk ['a'] ++ quoteStr) 'x').expected ≠ [] ∧
      (MpcErr.new MpcState.defaultState [String.mk ['a']]
        ("expected " ++ quoteStr ++ String.mk ['a'] ++ quoteStr) 'x').state =
        (MpcInput.new "" ['x']).state ∧
      MpcInput.new "" ['x'] = MpcInput.new "" ['x']) ∧
    ((MpcErr.new ⟨1, 0, 1, 0⟩ ["satisfy"] "char does not satisfy condition" 'x').expected ≠ [] ∧
      (MpcErr.new ⟨1, 0, 1, 0⟩ ["satisfy"] "char does not satisfy condition" 'x').state =
        (⟨"", [], 1, ⟨1, 0, 1, 0⟩⟩ : MpcInput).state) ∧
    ((MpcErr.new MpcState.defaultState [String.mk ['a']]
        ("expected " ++ quoteStr ++ String.mk ['a'] ++ quoteStr) 'x').expected ≠ [] ∧
      (MpcErr.new MpcState.defaultState [String.mk ['a']]
        ("expected " ++ quoteStr ++ String.mk ['a'] ++ quoteStr) 'x').state =
        (MpcInput.new "" ['x']).state) :=
  ⟨claim_C5.1 0 "c" (.charT 'a') (MpcInput.new "" ['x'])
      (MpcErr.new MpcState.defaultState [String.mk ['a']]
        ("expected " ++ quoteStr ++ String.mk ['a'] ++ quoteStr) 'x')
      (MpcInput.new "" ['x']) rfl rfl,
   claim_C5.2.1 0 "satisfy" Char.isDigit (MpcInput.new "" ['x'])
      (MpcErr.new ⟨1, 0, 1, 0⟩ ["satisfy"] "char does not satisfy condition" 'x')
      (⟨"", [], 1, ⟨1, 0, 1, 0⟩⟩ : MpcInput) rfl,
   claim_C5.2.2 0 "s" ['a'] (MpcInput.new "" ['x'])
      (MpcErr.new MpcState.defaultState [String.mk ['a']]
        ("expected " ++ quoteStr ++ String.mk ['a'] ++ quoteStr) 'x')
      (MpcInput.new "" ['x']) rfl⟩

/-- C6: mpc_string(s) run on exactly the input s succeeds for every string
s, produces the value s, consumes the whole input (the remaining character
list is empty and the byte index advanced by the full encoded width), and
the final position offset equals the character length of s. -/
theorem claim_C6 (s : List Char) (fn : String) (n : Nat) :
    parseP (n + 1) (mpc_string s) (MpcInput.new fn s) =
      some (.ok (.str (String.mk s)),
        ⟨fn, [], utf8Len s, stateAfterChars s MpcState.defaultState⟩)
    ∧ (stateAfterChars s MpcState.defaultState).pos = (s.length : Int) := by
  constructor
  · have h := stringStep_ok s [] s fn 0 MpcState.defaultState
    rw [List.append_nil] at h
    show some (stringStep s s ⟨fn, s, 0, MpcState.defaultState⟩) = _
    rw [h]
    simp
  · rw [stateAfterChars_pos]
    simp [MpcState.defaultState]

/-- C7 counterexample: running tag with sub-parser char(b) from a cursor at
offset 5 succeeds, but the produced AstNode carries the default state
(offset 0), not the position at which the sub-parser began. -/
theorem claim_C7_counterexample :
    parseP 5 (mpca_tag (mpc_char 'b') "T") (⟨"", ['b'], 5, ⟨5, 0, 5, 0⟩⟩ : MpcInput) =
      some (.ok (.ast (.mk "T" "Any \x7b .. \x7d" MpcState.defaultState 0 [])),
        ⟨"", [], 6, ⟨6, 0, 6, 0⟩⟩)
    ∧ MpcState.defaultState ≠ (⟨"", ['b'], 5, ⟨5, 0, 5, 0⟩⟩ : MpcInput).state :=
  ⟨rfl, by decide⟩

/-- C7 amended: when the sub-parser of tag succeeds, the tag combinator
returns an AstNode whose tag field is the given tag, whose contents is the
constant Debug rendering of the boxed sub-result, and whose state is the
default position (offset 0, row 0, col 0) regardless of where the
sub-parser began. -/
theorem claim_C7 (n : Nat) (p : MpcParser) (tg : String) (input inp1 : MpcInput) (v : MpcVal)
    (h : parseAux n (.parse p input) = some (.ok v, inp1)) :
    parseP (n + 1) (mpca_tag p tg) input =
      some (.ok (.ast (.mk tg "Any \x7b .. \x7d" MpcState.defaultState 0 [])), inp1) := by
  simp [parseP, parseAux, mpca_tag, h, MpcAst.new, debugRender]

/-- C7 witness: the amended theorem applied to char(b) on input "b". -/
theorem claim_C7_witness :
    parseP 2 (mpca_tag (mpc_char 'b') "T") (MpcInput.new "" ['b']) =
      some (.ok (.ast (.mk "T" "Any \x7b .. \x7d" MpcState.defaultState 0 [])),
        ⟨"", [], 1, ⟨1, 0, 1, 0⟩⟩) :=
  claim_C7 1 (mpc_char 'b') "T" (MpcInput.new "" ['b'])
    (⟨"", [], 1, ⟨1, 0, 1, 0⟩⟩ : MpcInput) (.str "b") rfl

/-- C8: with at least one remaining character c, advance returns c, removes
it from the remaining input, advances the byte offset by the encoded width
of c, increments the position offset, and updates row and col (newline
resets col to 0 and increments row, any other character increments col);
at end of input advance returns none and leaves the input unchanged. -/
theorem claim_C8 (input : MpcInput) (c : Char) (rest : List Char) :
    (input.remaining = c :: rest →
      (input.advance).1 = some c ∧
      (input.advance).2.remaining = rest ∧
      (input.advance).2.bytePos = input.bytePos + lenUtf8 c ∧
      (input.advance).2.state.pos = input.state.pos + 1 ∧
      (if c = '\n'
        then (input.advance).2.state.col = 0 ∧
          (input.advance).2.state.row = input.state.row + 1
        else (input.advance).2.state.col = input.state.col + 1 ∧
          (input.advance).2.state.row = input.state.row))
    ∧ (input.remaining = [] → input.advance = (none, input)) := by
  constructor
  · intro h
    simp only [MpcInput.advance, h, advState]
    by_cases hc : c = '\n' <;> simp [hc]
  · intro h
    simp [MpcInput.advance, h]

/-- C8 witness: the theorem applied to a newline at the front of the input
and to the empty input. -/
theorem claim_C8_witness :
    (((MpcInput.new "" ['\n']).advance).1 = some '\n' ∧
      ((MpcInput.new "" ['\n']).advance).2.remaining = [] ∧
      ((MpcInput.new "" ['\n']).advance).2.bytePos =
        (MpcInput.new "" ['\n']).bytePos + lenUtf8 '\n' ∧
      ((MpcInput.new "" ['\n']).advance).2.state.pos =
        (MpcInput.new "" ['\n']).state.pos + 1 ∧
      (if '\n' = '\n'
        then ((MpcInput.new "" ['\n']).advance).2.state.col = 0 ∧
          ((MpcInput.new "" ['\n']).advance).2.state.row =
            (MpcInput.new "" ['\n']).state.row + 1
        else ((MpcInput.new "" ['\n']).advance).2.state.col =
          (MpcInput.new "" ['\n']).state.col + 1 ∧
          ((MpcInput.new "" ['\n']).advance).2.state.row =
            (MpcInput.new "" ['\n']).state.row))
    ∧ (MpcInput.new "" []).advance = (none, MpcInput.new "" []) :=
  ⟨(claim_C8 (MpcInput.new "" ['\n']) '\n' []).1 rfl,
   (claim_C8 (MpcInput.new "" []) 'x' []).2 rfl⟩

/-- C9: every Anchor parser succeeds on every input and at every cursor
position with a unit value, leaving the input untouched and never
evaluating its predicate (the result is the same for every predicate f);
in particular mpc_eoi, mpc_soi and mpc_boundary always succeed, mpc_eoi
even when unconsumed input remains. -/
theorem claim_C9 :
    (∀ (n : Nat) (nm : String) (f : Char → Char → Bool) (input : MpcInput),
      parseP (n + 1) (.mk nm (.anchorT f)) input = some (.ok .unit, input)) ∧
    (∀ (n : Nat) (input : MpcInput),
      parseP (n + 1) mpc_eoi input = some (.ok .unit, input)) ∧
    (∀ (n : Nat) (input : MpcInput),
      parseP (n + 1) mpc_soi input = some (.ok .unit, input)) ∧
    (∀ (n : Nat) (input : MpcInput),
      parseP (n + 1) mpc_boundary input = some (.ok .unit, input)) :=
  ⟨fun _ _ _ _ => rfl, fun _ _ => rfl, fun _ _ => rfl, fun _ _ => rfl⟩

/-- C10: mpc_or of an empty list fails on every input with an error at the
current cursor position, expected set ["or"], failure message
"no alternatives matched", and the cursor unchanged. -/
theorem claim_C10 (n : Nat) (input : MpcInput) :
    parseP (n + 2) (mpc_or []) input =
      some (.err (MpcErr.new input.state ["or"] "no alternatives matched" nulChar), input) :=
  rfl
